import Mathlib

/-!
Verification of the `pumpfun` global-account core: the Borsh codec of the
`GlobalAccount` struct and the `get_initial_buy_price` pricing function
(`src/crates/pumpfun/src/accounts/global.rs`).

Shallow embedding conventions:
* `u64` / `u128` values are `Nat`; machine bounds (`< 2^64`) appear as
  well-formedness hypotheses, since every struct field is a `u64` (or a
  fixed 32-byte array) in the source.
* Byte sequences are `List Nat` with each byte `< 256`.
* Fallible operations return `Option`: `none` models a Borsh decode error,
  or — in the pricing function — a checked-arithmetic failure (overflow,
  underflow or division by zero of a `u128` operation, which panics under
  Rust's checked arithmetic).
-/

namespace PumpFun

/-- The `GlobalAccount` struct of `global.rs`: `discriminator : u64`,
`initialized : bool`, `authority_bytes : [u8; 32]`,
`fee_recipient_bytes : [u8; 32]`, then five `u64` fields. -/
structure GlobalAccount where
  discriminator : Nat
  initialized : Bool
  authority_bytes : List Nat
  fee_recipient_bytes : List Nat
  initial_virtual_token_reserves : Nat
  initial_virtual_sol_reserves : Nat
  initial_real_token_reserves : Nat
  token_total_supply : Nat
  fee_basis_points : Nat
  deriving DecidableEq, Repr

/-- Well-formedness: every `u64` field is below `2^64`, and the two
`[u8; 32]` fields are exactly 32 bytes, each below 256. -/
def Wf (g : GlobalAccount) : Prop :=
  g.discriminator < 2 ^ 64 ∧
  g.authority_bytes.length = 32 ∧ (∀ b ∈ g.authority_bytes, b < 256) ∧
  g.fee_recipient_bytes.length = 32 ∧ (∀ b ∈ g.fee_recipient_bytes, b < 256) ∧
  g.initial_virtual_token_reserves < 2 ^ 64 ∧
  g.initial_virtual_sol_reserves < 2 ^ 64 ∧
  g.initial_real_token_reserves < 2 ^ 64 ∧
  g.token_total_supply < 2 ^ 64 ∧
  g.fee_basis_points < 2 ^ 64

instance (g : GlobalAccount) : Decidable (Wf g) := by
  unfold Wf; infer_instance

/-! ## Borsh codec

Borsh serializes the struct field by field, in declaration order:
a `u64` as 8 little-endian bytes, a `bool` as one byte (`0` or `1`,
deserialization rejecting any other value), and a `[u8; 32]` as its 32
raw bytes.  `try_from_slice` deserializes and then requires that the
whole input was consumed. -/

/-- `w` little-endian bytes of `n` (the Borsh encoding of a `w`-byte
unsigned integer). -/
def leBytes : Nat → Nat → List Nat
  | 0, _ => []
  | w + 1, n => n % 256 :: leBytes w (n / 256)

/-- The value a little-endian byte list denotes. -/
def leVal : List Nat → Nat
  | [] => 0
  | b :: bs => b + 256 * leVal bs

/-- Borsh encoding of a `bool`: one byte, `1` for `true`, `0` for `false`. -/
def serializeBool (b : Bool) : List Nat :=
  [if b then 1 else 0]

/-- Borsh serialization of `GlobalAccount` (derived `BorshSerialize`):
the fields in declaration order. -/
def serialize (g : GlobalAccount) : List Nat :=
  leBytes 8 g.discriminator ++
  serializeBool g.initialized ++
  g.authority_bytes ++
  g.fee_recipient_bytes ++
  leBytes 8 g.initial_virtual_token_reserves ++
  leBytes 8 g.initial_virtual_sol_reserves ++
  leBytes 8 g.initial_real_token_reserves ++
  leBytes 8 g.token_total_supply ++
  leBytes 8 g.fee_basis_points

/-- Read `k` raw bytes from the input; fails if fewer remain. -/
def readBytes (k : Nat) (bs : List Nat) : Option (List Nat × List Nat) :=
  if k ≤ bs.length then some (bs.take k, bs.drop k) else none

/-- Borsh deserialization of a `u64`: 8 little-endian bytes. -/
def readU64 (bs : List Nat) : Option (Nat × List Nat) :=
  match readBytes 8 bs with
  | some (chunk, rest) => some (leVal chunk, rest)
  | none => none

/-- Borsh deserialization of a `bool`: one byte, `0 ↦ false`, `1 ↦ true`,
anything else is an error. -/
def readBool (bs : List Nat) : Option (Bool × List Nat) :=
  match bs with
  | [] => none
  | b :: rest =>
      if b = 0 then some (false, rest)
      else if b = 1 then some (true, rest)
      else none

/-- Borsh deserialization of `GlobalAccount` (derived `BorshDeserialize`):
the fields in declaration order, returning the remaining input. -/
def deserialize (bs : List Nat) : Option (GlobalAccount × List Nat) := do
  let (d, bs) ← readU64 bs
  let (init, bs) ← readBool bs
  let (auth, bs) ← readBytes 32 bs
  let (fee, bs) ← readBytes 32 bs
  let (vtok, bs) ← readU64 bs
  let (vsol, bs) ← readU64 bs
  let (rtok, bs) ← readU64 bs
  let (supply, bs) ← readU64 bs
  let (fbp, bs) ← readU64 bs
  some ({ discriminator := d
          initialized := init
          authority_bytes := auth
          fee_recipient_bytes := fee
          initial_virtual_token_reserves := vtok
          initial_virtual_sol_reserves := vsol
          initial_real_token_reserves := rtok
          token_total_supply := supply
          fee_basis_points := fbp }, bs)

/-- Borsh `try_from_slice`: deserialize and require the whole input
consumed. -/
def try_from_slice (bs : List Nat) : Option GlobalAccount :=
  match deserialize bs with
  | some (g, []) => some g
  | _ => none

/-! ## Pricing function

`get_initial_buy_price` from `global.rs`:

```rust
pub fn get_initial_buy_price(&self, amount: u64) -> u64 {
    if amount == 0 { return 0; }
    let n: u128 = (self.initial_virtual_sol_reserves as u128)
        * (self.initial_virtual_token_reserves as u128);
    let i: u128 = (self.initial_virtual_sol_reserves as u128) + (amount as u128);
    let r: u128 = n / i + 1;
    let s: u128 = (self.initial_virtual_token_reserves as u128) - r;
    if s < (self.initial_real_token_reserves as u128) { s as u64 }
    else { self.initial_real_token_reserves }
}
```

Each `u128` operation is modelled checked: an overflowing multiplication
or addition, a division by zero, or an underflowing subtraction is a
panic, modelled as `none`.  The `s as u64` narrowing cast truncates
(`% 2^64`), as in Rust. -/

/-- `get_initial_buy_price`, with every `u128` operation checked:
`none` models a panic of the Rust code. -/
def get_initial_buy_price (g : GlobalAccount) (amount : Nat) : Option Nat :=
  if amount = 0 then some 0
  else
    let n := g.initial_virtual_sol_reserves * g.initial_virtual_token_reserves
    if 2 ^ 128 ≤ n then none
    else
      let i := g.initial_virtual_sol_reserves + amount
      if 2 ^ 128 ≤ i then none
      else if i = 0 then none
      else
        let r := n / i + 1
        if 2 ^ 128 ≤ r then none
        else if g.initial_virtual_token_reserves < r then none
        else
          let s := g.initial_virtual_token_reserves - r
          if s < g.initial_real_token_reserves then some (s % 2 ^ 64)
          else some g.initial_real_token_reserves

/-- The bytes at offsets `[off, off + len)` of a byte sequence. -/
def slice (off len : Nat) (l : List Nat) : List Nat :=
  (l.drop off).take len

/-- A representative well-formed configuration, with the reserve values of
the spec's concrete scenario. -/
def sampleConfig : GlobalAccount where
  discriminator := 1
  initialized := true
  authority_bytes := List.replicate 32 2
  fee_recipient_bytes := List.replicate 32 3
  initial_virtual_token_reserves := 1000000000
  initial_virtual_sol_reserves := 30000000000
  initial_real_token_reserves := 800000000
  token_total_supply := 1000000000
  fee_basis_points := 100

/-- A configuration whose virtual token reserve is zero: the only kind of
configuration on which the pricing quotient can exceed the virtual token
reserve. -/
def zeroTokenConfig : GlobalAccount where
  discriminator := 0
  initialized := true
  authority_bytes := List.replicate 32 0
  fee_recipient_bytes := List.replicate 32 0
  initial_virtual_token_reserves := 0
  initial_virtual_sol_reserves := 0
  initial_real_token_reserves := 0
  token_total_supply := 0
  fee_basis_points := 0

/-! ## Helper lemmas on the codec primitives -/

theorem leBytes_length (w n : Nat) : (leBytes w n).length = w := by
  induction w generalizing n with
  | zero => rfl
  | succ w ih => simp [leBytes, ih]

theorem leVal_leBytes {w n : Nat} (h : n < 2 ^ (8 * w)) :
    leVal (leBytes w n) = n := by
  induction w generalizing n with
  | zero =>
      simp [leBytes, leVal]
      omega
  | succ w ih =>
      have hdiv : n / 256 < 2 ^ (8 * w) := by
        apply Nat.div_lt_of_lt_mul
        calc n < 2 ^ (8 * (w + 1)) := h
        _ = 2 ^ (8 * w) * 256 := by ring
        _ = 256 * 2 ^ (8 * w) := by ring
      simp [leBytes, leVal, ih hdiv]
      omega

theorem readBytes_append {l rest : List Nat} {k : Nat} (h : l.length = k) :
    readBytes k (l ++ rest) = some (l, rest) := by
  subst h
  simp [readBytes, List.take_left, List.drop_left]

theorem readU64_leBytes {n : Nat} (h : n < 2 ^ 64) (rest : List Nat) :
    readU64 (leBytes 8 n ++ rest) = some (n, rest) := by
  have hlen : (leBytes 8 n).length = 8 := leBytes_length 8 n
  have hval : leVal (leBytes 8 n) = n := leVal_leBytes (by norm_num; omega)
  simp [readU64, readBytes_append hlen, hval]

theorem readBool_serializeBool (b : Bool) (rest : List Nat) :
    readBool (serializeBool b ++ rest) = some (b, rest) := by
  cases b <;> simp [serializeBool, readBool]

theorem deserialize_serialize (g : GlobalAccount) (h : Wf g) (rest : List Nat) :
    deserialize (serialize g ++ rest) = some (g, rest) := by
  obtain ⟨hd, hal, -, hfl, -, hvt, hvs, hrt, hts, hfb⟩ := h
  simp only [serialize, List.append_assoc, deserialize,
    readU64_leBytes hd, readBool_serializeBool,
    readBytes_append hal, readBytes_append hfl,
    readU64_leBytes hvt, readU64_leBytes hvs, readU64_leBytes hrt,
    readU64_leBytes hts, readU64_leBytes hfb,
    Option.bind_eq_bind, Option.some_bind]

theorem some_pair_inv {α β : Type} {a c : α} {b d : β}
    (h : (some (a, b) : Option (α × β)) = some (c, d)) : a = c ∧ b = d := by
  injection h with h'
  exact ⟨congrArg Prod.fst h', congrArg Prod.snd h'⟩

theorem readBytes_length {k : Nat} {bs l rest : List Nat}
    (h : readBytes k bs = some (l, rest)) : bs.length = k + rest.length := by
  unfold readBytes at h
  split at h
  · obtain ⟨-, h2⟩ := some_pair_inv h
    subst h2
    simp only [List.length_drop]
    omega
  · exact absurd h (by simp)

theorem readU64_length {bs rest : List Nat} {n : Nat}
    (h : readU64 bs = some (n, rest)) : bs.length = 8 + rest.length := by
  unfold readU64 at h
  split at h
  next chunk rest' e =>
    obtain ⟨-, h2⟩ := some_pair_inv h
    subst h2
    exact readBytes_length e
  next => exact absurd h (by simp)

theorem readBool_length {bs rest : List Nat} {b : Bool}
    (h : readBool bs = some (b, rest)) : bs.length = 1 + rest.length := by
  match bs with
  | [] => exact absurd h (by simp [readBool])
  | x :: xs =>
    simp only [readBool] at h
    split at h
    · obtain ⟨-, h2⟩ := some_pair_inv h
      subst h2
      simp only [List.length_cons]
      omega
    · split at h
      · obtain ⟨-, h2⟩ := some_pair_inv h
        subst h2
        simp only [List.length_cons]
        omega
      · exact absurd h (by simp)

theorem bind_some_inv {α β : Type} {o : Option α} {f : α → Option β} {b : β}
    (h : o.bind f = some b) : ∃ a, o = some a ∧ f a = some b := by
  cases o with
  | none => exact absurd h (by simp)
  | some a => exact ⟨a, rfl, by simpa using h⟩

theorem deserialize_length {bs : List Nat} {g : GlobalAccount} {rest : List Nat}
    (h : deserialize bs = some (g, rest)) : bs.length = 113 + rest.length := by
  unfold deserialize at h
  simp only [Option.bind_eq_bind] at h
  obtain ⟨⟨d, bs1⟩, e1, h⟩ := bind_some_inv h
  obtain ⟨⟨i, bs2⟩, e2, h⟩ := bind_some_inv h
  obtain ⟨⟨au, bs3⟩, e3, h⟩ := bind_some_inv h
  obtain ⟨⟨fe, bs4⟩, e4, h⟩ := bind_some_inv h
  obtain ⟨⟨vt, bs5⟩, e5, h⟩ := bind_some_inv h
  obtain ⟨⟨vs, bs6⟩, e6, h⟩ := bind_some_inv h
  obtain ⟨⟨rt, bs7⟩, e7, h⟩ := bind_some_inv h
  obtain ⟨⟨ts, bs8⟩, e8, h⟩ := bind_some_inv h
  obtain ⟨⟨fb, bs9⟩, e9, h⟩ := bind_some_inv h
  obtain ⟨-, h10⟩ := some_pair_inv h
  subst h10
  show bs.length = 113 + bs9.length
  have l1 : bs.length = 8 + bs1.length := readU64_length e1
  have l2 : bs1.length = 1 + bs2.length := readBool_length e2
  have l3 : bs2.length = 32 + bs3.length := readBytes_length e3
  have l4 : bs3.length = 32 + bs4.length := readBytes_length e4
  have l5 : bs4.length = 8 + bs5.length := readU64_length e5
  have l6 : bs5.length = 8 + bs6.length := readU64_length e6
  have l7 : bs6.length = 8 + bs7.length := readU64_length e7
  have l8 : bs7.length = 8 + bs8.length := readU64_length e8
  have l9 : bs8.length = 8 + bs9.length := readU64_length e9
  omega

theorem slice_append {l₁ l₂ : List Nat} {off : Nat} (h : l₁.length = off)
    (len : Nat) : slice off len (l₁ ++ l₂) = l₂.take len := by
  simp [slice, List.drop_left' h]

theorem slice_shift {pre post : List Nat} {k off : Nat} (h : pre.length = k)
    (len : Nat) : slice (k + off) len (pre ++ post) = slice off len post := by
  simp [slice, ← h, List.drop_append]

theorem take_exact {l : List Nat} {len : Nat} (h : l.length = len) :
    l.take len = l := by
  rw [← h, List.take_length]

/-! ## Helper lemmas on the pricing function -/

theorem buy_price_zero (g : GlobalAccount) : get_initial_buy_price g 0 = some 0 := by
  simp [get_initial_buy_price]

/-- When no underflow occurs (`quotient ≤ virtualTokenReserves`), the
pricing function returns the clamped curve value. -/
theorem buy_price_eq (g : GlobalAccount) (h : Wf g) (a : Nat) (ha : a ≠ 0)
    (ha64 : a < 2 ^ 64)
    (hq : g.initial_virtual_sol_reserves * g.initial_virtual_token_reserves /
        (g.initial_virtual_sol_reserves + a) + 1 ≤ g.initial_virtual_token_reserves) :
    get_initial_buy_price g a =
      some (min (g.initial_virtual_token_reserves -
        (g.initial_virtual_sol_reserves * g.initial_virtual_token_reserves /
          (g.initial_virtual_sol_reserves + a) + 1))
        g.initial_real_token_reserves) := by
  obtain ⟨-, -, -, -, -, hvt, hvs, -, -, -⟩ := h
  have hn : ¬ 2 ^ 128 ≤
      g.initial_virtual_sol_reserves * g.initial_virtual_token_reserves := by
    have : g.initial_virtual_sol_reserves * g.initial_virtual_token_reserves
        ≤ (2 ^ 64 - 1) * (2 ^ 64 - 1) := Nat.mul_le_mul (by omega) (by omega)
    omega
  have hi : ¬ 2 ^ 128 ≤ g.initial_virtual_sol_reserves + a := by omega
  have hi0 : ¬ g.initial_virtual_sol_reserves + a = 0 := by omega
  have hr : ¬ 2 ^ 128 ≤
      g.initial_virtual_sol_reserves * g.initial_virtual_token_reserves /
        (g.initial_virtual_sol_reserves + a) + 1 := by omega
  have hnu : ¬ g.initial_virtual_token_reserves <
      g.initial_virtual_sol_reserves * g.initial_virtual_token_reserves /
        (g.initial_virtual_sol_reserves + a) + 1 := by omega
  simp only [get_initial_buy_price, if_neg ha, if_neg hn, if_neg hi, if_neg hi0,
    if_neg hr, if_neg hnu]
  have hsub := Nat.sub_le g.initial_virtual_token_reserves
    (g.initial_virtual_sol_reserves * g.initial_virtual_token_reserves /
      (g.initial_virtual_sol_reserves + a) + 1)
  split_ifs with h7
  · rw [Nat.mod_eq_of_lt (by omega)]
    congr 1
    omega
  · congr 1
    omega

/-- On the division path (`amount ≠ 0`), a positive virtual token reserve
keeps the quotient within the reserve: no underflow. -/
theorem quotient_le (g : GlobalAccount) (a : Nat) (ha : a ≠ 0)
    (hv : 0 < g.initial_virtual_token_reserves) :
    g.initial_virtual_sol_reserves * g.initial_virtual_token_reserves /
      (g.initial_virtual_sol_reserves + a) + 1 ≤ g.initial_virtual_token_reserves := by
  have hi : 0 < g.initial_virtual_sol_reserves + a := by omega
  have hlt : g.initial_virtual_sol_reserves * g.initial_virtual_token_reserves /
      (g.initial_virtual_sol_reserves + a) < g.initial_virtual_token_reserves := by
    rw [Nat.div_lt_iff_lt_mul hi]
    calc g.initial_virtual_sol_reserves * g.initial_virtual_token_reserves
        = g.initial_virtual_token_reserves * g.initial_virtual_sol_reserves := Nat.mul_comm ..
      _ < g.initial_virtual_token_reserves * (g.initial_virtual_sol_reserves + a) :=
          mul_lt_mul_of_pos_left (by omega) hv
  omega

/-- Inversion: a successful call with a nonzero amount implies the
quotient stayed within the virtual token reserve, and the result is the
clamped curve value. -/
theorem buy_price_some_inv (g : GlobalAccount) (h : Wf g) (a r : Nat)
    (ha : a ≠ 0) (hs : get_initial_buy_price g a = some r) :
    g.initial_virtual_sol_reserves * g.initial_virtual_token_reserves /
      (g.initial_virtual_sol_reserves + a) + 1 ≤ g.initial_virtual_token_reserves ∧
    r = min (g.initial_virtual_token_reserves -
        (g.initial_virtual_sol_reserves * g.initial_virtual_token_reserves /
          (g.initial_virtual_sol_reserves + a) + 1))
      g.initial_real_token_reserves := by
  obtain ⟨-, -, -, -, -, hvt, -, -, -, -⟩ := h
  have hsub := Nat.sub_le g.initial_virtual_token_reserves
    (g.initial_virtual_sol_reserves * g.initial_virtual_token_reserves /
      (g.initial_virtual_sol_reserves + a) + 1)
  simp only [get_initial_buy_price, if_neg ha] at hs
  split_ifs at hs <;>
    first
      | exact Option.noConfusion hs
      | (injection hs with hr
         rw [Nat.mod_eq_of_lt (by omega)] at hr
         exact ⟨by omega, by omega⟩)
      | (injection hs with hr
         exact ⟨by omega, by omega⟩)

/-! ## Claim theorems -/

/-- C1: for every well-formed config and u64 amount,
`get_initial_buy_price` returns 0 on a zero amount, and otherwise — when
no underflow occurs, i.e. the quotient stays within the virtual token
reserve — returns
`min (virtualTokenReserves - (virtualSolReserves * virtualTokenReserves /
(virtualSolReserves + amount) + 1)) realTokenReserves`, with exact
arithmetic (nothing overflows 128 bits) and truncating division. -/
theorem getInitialBuyPrice_formula (g : GlobalAccount) (a : Nat) (h : Wf g)
    (ha64 : a < 2 ^ 64)
    (hnu : a ≠ 0 →
      g.initial_virtual_sol_reserves * g.initial_virtual_token_reserves /
        (g.initial_virtual_sol_reserves + a) + 1 ≤ g.initial_virtual_token_reserves) :
    get_initial_buy_price g a =
      some (if a = 0 then 0
        else min (g.initial_virtual_token_reserves -
          (g.initial_virtual_sol_reserves * g.initial_virtual_token_reserves /
            (g.initial_virtual_sol_reserves + a) + 1))
          g.initial_real_token_reserves) := by
  by_cases ha : a = 0
  · subst ha
    rw [if_pos rfl]
    exact buy_price_zero g
  · rw [if_neg ha]
    exact buy_price_eq g h a ha ha64 (hnu ha)

theorem getInitialBuyPrice_formula_witness :
    Wf sampleConfig ∧ (1000000000 : Nat) < 2 ^ 64 ∧
    ((1000000000 : Nat) ≠ 0 →
      sampleConfig.initial_virtual_sol_reserves *
          sampleConfig.initial_virtual_token_reserves /
        (sampleConfig.initial_virtual_sol_reserves + 1000000000) + 1 ≤
        sampleConfig.initial_virtual_token_reserves) ∧
    get_initial_buy_price sampleConfig 1000000000 =
      some (if (1000000000 : Nat) = 0 then 0
        else min (sampleConfig.initial_virtual_token_reserves -
          (sampleConfig.initial_virtual_sol_reserves *
              sampleConfig.initial_virtual_token_reserves /
            (sampleConfig.initial_virtual_sol_reserves + 1000000000) + 1))
          sampleConfig.initial_real_token_reserves) :=
  ⟨by decide, by decide, by decide,
    getInitialBuyPrice_formula sampleConfig 1000000000 (by decide) (by decide)
      (by decide)⟩

/-- C3 (code bug): on the only inputs where the quotient exceeds the
virtual token reserve (a zero virtual token reserve with a positive
amount), the code performs the unsigned subtraction unguarded: under
checked `u128` arithmetic the call panics (modelled `none`) instead of
surfacing an `ArithmeticError` value to the caller. -/
theorem buyPrice_underflow_panics :
    zeroTokenConfig.initial_virtual_token_reserves <
      zeroTokenConfig.initial_virtual_sol_reserves *
          zeroTokenConfig.initial_virtual_token_reserves /
        (zeroTokenConfig.initial_virtual_sol_reserves + 1) + 1 ∧
    get_initial_buy_price zeroTokenConfig 1 = none := by
  decide

/-- C4: any value the pricing function returns is at most the real token
reserve: the real-reserve ceiling is never exceeded by any quote. -/
theorem quote_le_real_reserves (g : GlobalAccount) (a r : Nat)
    (hs : get_initial_buy_price g a = some r) :
    r ≤ g.initial_real_token_reserves := by
  simp only [get_initial_buy_price] at hs
  split_ifs at hs with h0 h1 h2 h3 h4 h5 h6 <;>
    first
      | exact Option.noConfusion hs
      | (injection hs with hr
         omega)

theorem quote_le_real_reserves_witness :
    get_initial_buy_price sampleConfig 1000000000 = some 32258064 ∧
    (32258064 : Nat) ≤ sampleConfig.initial_real_token_reserves :=
  ⟨by decide,
    quote_le_real_reserves sampleConfig 1000000000 32258064 (by decide)⟩

/-- C6: with virtual token reserves 1,000,000,000, virtual SOL reserves
30,000,000,000 and real token reserves 800,000,000, an amount of
1,000,000,000 buys exactly 32,258,064 tokens (whatever the remaining
fields are). -/
theorem concrete_scenario (g : GlobalAccount)
    (hvt : g.initial_virtual_token_reserves = 1000000000)
    (hvs : g.initial_virtual_sol_reserves = 30000000000)
    (hrt : g.initial_real_token_reserves = 800000000) :
    get_initial_buy_price g 1000000000 = some 32258064 := by
  simp only [get_initial_buy_price, hvt, hvs, hrt]
  norm_num

theorem concrete_scenario_witness :
    sampleConfig.initial_virtual_token_reserves = 1000000000 ∧
    sampleConfig.initial_virtual_sol_reserves = 30000000000 ∧
    sampleConfig.initial_real_token_reserves = 800000000 ∧
    get_initial_buy_price sampleConfig 1000000000 = some 32258064 :=
  ⟨rfl, rfl, rfl, concrete_scenario sampleConfig rfl rfl rfl⟩

/-- C5: for a fixed well-formed config, the quote is monotone in the
amount: whenever both calls return a value and `a1 ≤ a2`, the tokens out
for `a1` are at most those for `a2` (plateauing at the real-reserve
ceiling). -/
theorem quote_monotone (g : GlobalAccount) (h : Wf g) (a1 a2 r1 r2 : Nat)
    (hle : a1 ≤ a2) (h1 : get_initial_buy_price g a1 = some r1)
    (h2 : get_initial_buy_price g a2 = some r2) : r1 ≤ r2 := by
  by_cases ha1 : a1 = 0
  · subst ha1
    rw [buy_price_zero g] at h1
    injection h1 with hr1
    omega
  · have ha2 : a2 ≠ 0 := by omega
    obtain ⟨hq1, hr1⟩ := buy_price_some_inv g h a1 r1 ha1 h1
    obtain ⟨hq2, hr2⟩ := buy_price_some_inv g h a2 r2 ha2 h2
    have hqle : g.initial_virtual_sol_reserves * g.initial_virtual_token_reserves /
        (g.initial_virtual_sol_reserves + a2) ≤
        g.initial_virtual_sol_reserves * g.initial_virtual_token_reserves /
        (g.initial_virtual_sol_reserves + a1) :=
      Nat.div_le_div_left (by omega) (by omega)
    have hsle : g.initial_virtual_token_reserves -
        (g.initial_virtual_sol_reserves * g.initial_virtual_token_reserves /
          (g.initial_virtual_sol_reserves + a1) + 1) ≤
        g.initial_virtual_token_reserves -
        (g.initial_virtual_sol_reserves * g.initial_virtual_token_reserves /
          (g.initial_virtual_sol_reserves + a2) + 1) :=
      Nat.sub_le_sub_left (by omega) _
    omega

theorem quote_monotone_witness :
    Wf sampleConfig ∧ (1000000000 : Nat) ≤ 2000000000 ∧
    get_initial_buy_price sampleConfig 1000000000 = some 32258064 ∧
    get_initial_buy_price sampleConfig 2000000000 = some 62499999 ∧
    (32258064 : Nat) ≤ 62499999 :=
  ⟨by decide, by decide, by decide, by decide,
    quote_monotone sampleConfig (by decide) 1000000000 2000000000
      32258064 62499999 (by decide) (by decide) (by decide)⟩

/-- C9: on a well-formed config with a positive virtual token reserve,
the pricing function is total and panic-free for every u64 amount: no
division by zero, no `u128` overflow or underflow, and the result fits a
`u64` (the narrowing cast is lossless). -/
theorem quote_total_of_pos_reserves (g : GlobalAccount) (h : Wf g)
    (hv : 0 < g.initial_virtual_token_reserves) (a : Nat) (ha64 : a < 2 ^ 64) :
    ∃ r, get_initial_buy_price g a = some r ∧ r < 2 ^ 64 := by
  by_cases ha : a = 0
  · subst ha
    exact ⟨0, buy_price_zero g, by norm_num⟩
  · refine ⟨_, buy_price_eq g h a ha ha64 (quotient_le g a ha hv), ?_⟩
    have hrt : g.initial_real_token_reserves < 2 ^ 64 := by
      obtain ⟨-, -, -, -, -, -, -, hrt, -, -⟩ := h
      exact hrt
    omega

theorem quote_total_of_pos_reserves_witness :
    Wf sampleConfig ∧ 0 < sampleConfig.initial_virtual_token_reserves ∧
    (1000000000 : Nat) < 2 ^ 64 ∧
    ∃ r, get_initial_buy_price sampleConfig 1000000000 = some r ∧ r < 2 ^ 64 :=
  ⟨by decide, by decide, by decide,
    quote_total_of_pos_reserves sampleConfig (by decide) (by decide)
      1000000000 (by decide)⟩

/-- C2: decoding the bytes produced by encoding a valid `GlobalAccount`
yields the same value again, field for field, including the two 32-byte
identifier fields. -/
theorem decode_encode_roundtrip (g : GlobalAccount) (h : Wf g) :
    try_from_slice (serialize g) = some g := by
  have h2 := deserialize_serialize g h []
  rw [List.append_nil] at h2
  simp [try_from_slice, h2]

theorem decode_encode_roundtrip_witness :
    Wf sampleConfig ∧ try_from_slice (serialize sampleConfig) = some sampleConfig :=
  ⟨by decide, decode_encode_roundtrip sampleConfig (by decide)⟩

/-- C7: encoding a well-formed `GlobalAccount` yields exactly 113 bytes,
laid out sequentially at fixed offsets, little-endian, in declared field
order: 8-byte discriminator at 0, 1-byte boolean at 8, 32-byte authority
at 9, 32-byte fee recipient at 41, and the five 8-byte little-endian
`u64` fields at 73, 81, 89, 97 and 105. -/
theorem serialize_layout (g : GlobalAccount) (h : Wf g) :
    (serialize g).length = 113 ∧
    leVal (slice 0 8 (serialize g)) = g.discriminator ∧
    slice 8 1 (serialize g) = [if g.initialized then 1 else 0] ∧
    slice 9 32 (serialize g) = g.authority_bytes ∧
    slice 41 32 (serialize g) = g.fee_recipient_bytes ∧
    leVal (slice 73 8 (serialize g)) = g.initial_virtual_token_reserves ∧
    leVal (slice 81 8 (serialize g)) = g.initial_virtual_sol_reserves ∧
    leVal (slice 89 8 (serialize g)) = g.initial_real_token_reserves ∧
    leVal (slice 97 8 (serialize g)) = g.token_total_supply ∧
    leVal (slice 105 8 (serialize g)) = g.fee_basis_points := by
  obtain ⟨hd, hal, -, hfl, -, hvt, hvs, hrt, hts, hfb⟩ := h
  have hbl : (serializeBool g.initialized).length = 1 := by
    cases g.initialized <;> rfl
  have hv64 : ∀ n : Nat, n < 2 ^ 64 → n < 2 ^ (8 * 8) := by norm_num
  refine ⟨?_, ?_, ?_, ?_, ?_, ?_, ?_, ?_, ?_, ?_⟩
  · simp [serialize, leBytes_length, hbl, hal, hfl]
  · simp only [serialize, List.append_assoc, slice, List.drop_zero]
    rw [List.take_left' (leBytes_length 8 _)]
    exact leVal_leBytes (hv64 _ hd)
  · simp only [serialize, List.append_assoc]
    rw [slice_append (leBytes_length 8 _), List.take_left' hbl]
    rfl
  · simp only [serialize, List.append_assoc]
    rw [show (9 : Nat) = 8 + 1 from rfl, slice_shift (leBytes_length 8 _),
      slice_append hbl, List.take_left' hal]
  · simp only [serialize, List.append_assoc]
    rw [show (41 : Nat) = 8 + 33 from rfl, slice_shift (leBytes_length 8 _),
      show (33 : Nat) = 1 + 32 from rfl, slice_shift hbl,
      slice_append hal, List.take_left' hfl]
  · simp only [serialize, List.append_assoc]
    rw [show (73 : Nat) = 8 + 65 from rfl, slice_shift (leBytes_length 8 _),
      show (65 : Nat) = 1 + 64 from rfl, slice_shift hbl,
      show (64 : Nat) = 32 + 32 from rfl, slice_shift hal,
      slice_append hfl, List.take_left' (leBytes_length 8 _)]
    exact leVal_leBytes (hv64 _ hvt)
  · simp only [serialize, List.append_assoc]
    rw [show (81 : Nat) = 8 + 73 from rfl, slice_shift (leBytes_length 8 _),
      show (73 : Nat) = 1 + 72 from rfl, slice_shift hbl,
      show (72 : Nat) = 32 + 40 from rfl, slice_shift hal,
      show (40 : Nat) = 32 + 8 from rfl, slice_shift hfl,
      slice_append (leBytes_length 8 _), List.take_left' (leBytes_length 8 _)]
    exact leVal_leBytes (hv64 _ hvs)
  · simp only [serialize, List.append_assoc]
    rw [show (89 : Nat) = 8 + 81 from rfl, slice_shift (leBytes_length 8 _),
      show (81 : Nat) = 1 + 80 from rfl, slice_shift hbl,
      show (80 : Nat) = 32 + 48 from rfl, slice_shift hal,
      show (48 : Nat) = 32 + 16 from rfl, slice_shift hfl,
      show (16 : Nat) = 8 + 8 from rfl, slice_shift (leBytes_length 8 _),
      slice_append (leBytes_length 8 _), List.take_left' (leBytes_length 8 _)]
    exact leVal_leBytes (hv64 _ hrt)
  · simp only [serialize, List.append_assoc]
    rw [show (97 : Nat) = 8 + 89 from rfl, slice_shift (leBytes_length 8 _),
      show (89 : Nat) = 1 + 88 from rfl, slice_shift hbl,
      show (88 : Nat) = 32 + 56 from rfl, slice_shift hal,
      show (56 : Nat) = 32 + 24 from rfl, slice_shift hfl,
      show (24 : Nat) = 8 + 16 from rfl, slice_shift (leBytes_length 8 _),
      show (16 : Nat) = 8 + 8 from rfl, slice_shift (leBytes_length 8 _),
      slice_append (leBytes_length 8 _), List.take_left' (leBytes_length 8 _)]
    exact leVal_leBytes (hv64 _ hts)
  · simp only [serialize, List.append_assoc]
    rw [show (105 : Nat) = 8 + 97 from rfl, slice_shift (leBytes_length 8 _),
      show (97 : Nat) = 1 + 96 from rfl, slice_shift hbl,
      show (96 : Nat) = 32 + 64 from rfl, slice_shift hal,
      show (64 : Nat) = 32 + 32 from rfl, slice_shift hfl,
      show (32 : Nat) = 8 + 24 from rfl, slice_shift (leBytes_length 8 _),
      show (24 : Nat) = 8 + 16 from rfl, slice_shift (leBytes_length 8 _),
      show (16 : Nat) = 8 + 8 from rfl, slice_shift (leBytes_length 8 _),
      slice_append (leBytes_length 8 _), take_exact (leBytes_length 8 _)]
    exact leVal_leBytes (hv64 _ hfb)

theorem serialize_layout_witness :
    Wf sampleConfig ∧ (serialize sampleConfig).length = 113 :=
  ⟨by decide, (serialize_layout sampleConfig (by decide)).1⟩

/-- C8: decoding any byte sequence shorter than 113 bytes fails (returns
the decode error, modelled `none`): it never produces a defaulted
record. -/
theorem decode_short_fails (bs : List Nat) (h : bs.length < 113) :
    try_from_slice bs = none := by
  unfold try_from_slice
  cases e : deserialize bs with
  | none => rfl
  | some p =>
      obtain ⟨g, rest⟩ := p
      exact absurd (deserialize_length e) (by omega)

theorem decode_short_fails_witness :
    ([] : List Nat).length < 113 ∧ try_from_slice [] = none :=
  ⟨by decide, decode_short_fails [] (by decide)⟩

/-- C10: the boolean decode is strict: if the byte at offset 8 (after the
8-byte discriminator) is neither 0 nor 1, decoding fails — the
nonzero-is-true lenient interpretation is never applied. -/
theorem decode_bool_strict (pre : List Nat) (b : Nat) (rest : List Nat)
    (hpre : pre.length = 8) (h0 : b ≠ 0) (h1 : b ≠ 1) :
    try_from_slice (pre ++ b :: rest) = none := by
  have hu : readU64 (pre ++ b :: rest) = some (leVal pre, b :: rest) := by
    simp [readU64, readBytes_append hpre]
  have hb : readBool (b :: rest) = none := by
    simp [readBool, h0, h1]
  simp [try_from_slice, deserialize, hu, hb]

theorem decode_bool_strict_witness :
    ([0, 0, 0, 0, 0, 0, 0, 0] : List Nat).length = 8 ∧ (2 : Nat) ≠ 0 ∧
    (2 : Nat) ≠ 1 ∧
    try_from_slice ([0, 0, 0, 0, 0, 0, 0, 0] ++ 2 :: []) = none :=
  ⟨by decide, by decide, by decide,
    decode_bool_strict [0, 0, 0, 0, 0, 0, 0, 0] 2 [] (by decide) (by decide)
      (by decide)⟩

end PumpFun
